import Mathlib

set_option maxRecDepth 8192

/-!
Verification of the parameter-mapping / deep-link construction layer and the
trend-signal computation layer of the cfpb-mcp repository.

The embedding is shallow:

* Python strings are modelled as lists of Unicode code points (`List Nat`);
  case mapping and whitespace classification are modelled over the ASCII
  range, which covers every value the mapped functions case-normalize.
* Python scalar/sequence parameter values are the inductive `PyVal`;
  parameter mappings (`dict`) are association lists with Python `dict`
  semantics (in-place update of an existing key, append of a fresh key).
* Python floats are modelled as rationals; the single square root used by
  the signal engine (`var ** 0.5`) is threaded explicitly as a function
  argument, and no claim settled here depends on its values.
* Fallible extraction from untyped JSON payloads is modelled with the
  inductive `J` and `Option`-returning lookups.
-/

/-! ## Python strings as code-point lists -/

/-- Code points of a Lean string literal, the embedding of a Python `str`. -/
def pstr (s : String) : List Nat :=
  s.data.map Char.toNat

/-- ASCII whitespace, the subset of Python `str.strip` / `\s` relevant here:
space, tab, newline, vertical tab, form feed, carriage return. -/
def isSp (n : Nat) : Bool :=
  n = 32 || n = 9 || n = 10 || n = 11 || n = 12 || n = 13

/-- Characters matched by the `[\s-]` character class of `_format_lens`. -/
def isSep (n : Nat) : Bool :=
  isSp n || n = 45

/-- Characters matched by the `[\s_-]` class of `_format_trend_interval`. -/
def isTokSep (n : Nat) : Bool :=
  isSp n || n = 45 || n = 95

/-- ASCII lower-casing of one code point (Python `str.lower`). -/
def lowerN (n : Nat) : Nat :=
  if 65 ≤ n ∧ n ≤ 90 then n + 32 else n

/-- ASCII upper-casing of one code point (Python `str.upper`). -/
def upperN (n : Nat) : Nat :=
  if 97 ≤ n ∧ n ≤ 122 then n - 32 else n

/-- Python `str.lower`. -/
def lowerS (l : List Nat) : List Nat :=
  l.map lowerN

/-- Python `str.strip`: drop leading and trailing whitespace. -/
def stripS (l : List Nat) : List Nat :=
  ((l.dropWhile isSp).reverse.dropWhile isSp).reverse

/-- `re.sub(r"[\s-]+", "_", s)`: each maximal run of separator characters
becomes a single underscore.  The flag records whether the previous
character was part of a run. -/
def subSepAux : Bool → List Nat → List Nat
  | _, [] => []
  | prevSep, c :: cs =>
    if isSep c then
      if prevSep then subSepAux true cs else 95 :: subSepAux true cs
    else
      c :: subSepAux false cs

def subSep (l : List Nat) : List Nat :=
  subSepAux false l

/-- Split on a character class, keeping empty segments (Python `re.split`). -/
def splitCh (p : Nat → Bool) (l : List Nat) : List (List Nat) :=
  let pair := l.foldr
    (fun c acc =>
      if p c then ([], acc.1 :: acc.2) else (c :: acc.1, acc.2))
    (([] : List Nat), ([] : List (List Nat)))
  pair.1 :: pair.2

/-- Python `str.capitalize`: first character upper-cased, rest lower-cased. -/
def capitalizeS : List Nat → List Nat
  | [] => []
  | c :: cs => upperN c :: cs.map lowerN

/-- `_format_trend_interval`: split the stripped value on `[\s_-]+`,
capitalize each non-empty token and join with single spaces.  Empty input
is returned unchanged (the source returns the original value then). -/
def format_trend_interval (s : List Nat) : List Nat :=
  let cleaned := stripS s
  if cleaned = [] then s
  else
    List.intercalate [32]
      (((splitCh isTokSep cleaned).filter (fun t => t ≠ [])).map capitalizeS)

/-- `_format_lens`: strip, collapse `[\s-]+` runs to `_`, lower-case.
Empty input is returned unchanged. -/
def format_lens (s : List Nat) : List Nat :=
  let cleaned := stripS s
  if cleaned = [] then s
  else lowerS (subSep cleaned)

/-! ## Python parameter values and dictionaries -/

/-- The Python values flowing through the parameter-mapping layer. -/
inductive PyVal : Type
  | vNone : PyVal
  | vBool (b : Bool) : PyVal
  | vInt (n : Int) : PyVal
  | vStr (s : List Nat) : PyVal
  | vList (l : List PyVal) : PyVal

mutual

/-- Boolean equality on `PyVal` (the derive handler does not support the
nested `List PyVal`). -/
def pyBeq : PyVal → PyVal → Bool
  | .vNone, .vNone => true
  | .vBool a, .vBool b => a == b
  | .vInt a, .vInt b => a == b
  | .vStr a, .vStr b => a == b
  | .vList a, .vList b => pyBeqL a b
  | _, _ => false

def pyBeqL : List PyVal → List PyVal → Bool
  | [], [] => true
  | x :: xs, y :: ys => pyBeq x y && pyBeqL xs ys
  | _, _ => false

end

mutual

theorem pyBeq_iff : ∀ a b : PyVal, pyBeq a b = true ↔ a = b
  | .vNone, .vNone => by simp [pyBeq]
  | .vBool a, .vBool b => by simp [pyBeq]
  | .vInt a, .vInt b => by simp [pyBeq]
  | .vStr a, .vStr b => by simp [pyBeq]
  | .vList a, .vList b => by simp [pyBeq, pyBeqL_iff a b]
  | .vNone, .vBool _ | .vNone, .vInt _ | .vNone, .vStr _ | .vNone, .vList _
  | .vBool _, .vNone | .vBool _, .vInt _ | .vBool _, .vStr _ | .vBool _, .vList _
  | .vInt _, .vNone | .vInt _, .vBool _ | .vInt _, .vStr _ | .vInt _, .vList _
  | .vStr _, .vNone | .vStr _, .vBool _ | .vStr _, .vInt _ | .vStr _, .vList _
  | .vList _, .vNone | .vList _, .vBool _ | .vList _, .vInt _ | .vList _, .vStr _ =>
    by simp [pyBeq]

theorem pyBeqL_iff : ∀ xs ys : List PyVal, pyBeqL xs ys = true ↔ xs = ys
  | [], [] => by simp [pyBeqL]
  | x :: xs, y :: ys => by
    simp [pyBeqL, pyBeq_iff x y, pyBeqL_iff xs ys]
  | [], _ :: _ => by simp [pyBeqL]
  | _ :: _, [] => by simp [pyBeqL]

end

instance : DecidableEq PyVal := fun a b => decidable_of_iff _ (pyBeq_iff a b)

/-- A Python `dict` keyed by strings, as an insertion-ordered association
list with pairwise-distinct keys. -/
abbrev PyDict := List (String × PyVal)

/-- Lookup (`d.get(k)` without default). -/
def dictGet (k : String) : PyDict → Option PyVal
  | [] => none
  | (k', v) :: rest => if k' = k then some v else dictGet k rest

/-- Python `k in d`. -/
def dictHas (k : String) (d : PyDict) : Bool :=
  (dictGet k d).isSome

/-- Python `d[k] = v`: update the existing entry in place, otherwise
append at the end (insertion order). -/
def dictSet (k : String) (v : PyVal) : PyDict → PyDict
  | [] => [(k, v)]
  | (k', v') :: rest =>
    if k' = k then (k, v) :: rest else (k', v') :: dictSet k v rest

/-- Python `d.pop(k, None)`. -/
def dictDrop (k : String) : PyDict → PyDict
  | [] => []
  | (k', v') :: rest =>
    if k' = k then rest else (k', v') :: dictDrop k rest

/-! ## `_clean_value` and `_parse_int` (src/utils/deeplink_mapping.py) -/

mutual

/-- `_clean_value`: `None` is dropped, booleans become the lowercase string
literals, strings are stripped (dropped when empty, canonicalized when
boolean-like), lists are cleaned element-wise (dropped when empty), and
any other value (here: ints) passes through. -/
def clean_value : PyVal → Option PyVal
  | .vNone => none
  | .vBool b => some (.vStr (if b then pstr "true" else pstr "false"))
  | .vStr s =>
    let cleaned := stripS s
    if cleaned = [] then none
    else
      let lowered := lowerS cleaned
      if lowered = pstr "true" ∨ lowered = pstr "false" then some (.vStr lowered)
      else some (.vStr cleaned)
  | .vInt n => some (.vInt n)
  | .vList xs =>
    let cleanedItems := clean_list xs
    if cleanedItems = [] then none else some (.vList cleanedItems)

/-- The element-wise loop of `_clean_value` over a list value: cleaned
items are kept, `None` results are skipped. -/
def clean_list : List PyVal → List PyVal
  | [] => []
  | x :: xs =>
    match clean_value x with
    | none => clean_list xs
    | some c => c :: clean_list xs

end

/-- Decimal value of an all-digit code-point list. -/
def digitsToNat (l : List Nat) : Nat :=
  l.foldl (fun acc d => acc * 10 + (d - 48)) 0

def isDigit (n : Nat) : Bool :=
  48 ≤ n && n ≤ 57

/-- `_parse_int`: `None` for `None`, the value itself for ints (Python
booleans are ints: `True` parses as 1), the decimal value of a stripped
all-digit string, `None` otherwise. -/
def parse_int : Option PyVal → Option Int
  | none => none
  | some .vNone => none
  | some (.vBool b) => some (if b then 1 else 0)
  | some (.vInt n) => some n
  | some (.vStr s) =>
    let c := stripS s
    if c ≠ [] ∧ c.all isDigit then some (digitsToNat c : Int) else none
  | some (.vList _) => none

/-! ## `normalize_api_params` -/

/-- The per-entry transformation applied by `normalize_api_params`:
clean the value, then lower-case `trend_interval` strings and
lens-format `lens` / `sub_lens` strings. -/
def norm_entry (k : String) (v : PyVal) : Option PyVal :=
  match clean_value v with
  | none => none
  | some c =>
    let c := if k = "trend_interval" then
        match c with
        | .vStr s => .vStr (lowerS s)
        | _ => c
      else c
    let c := if k = "lens" ∨ k = "sub_lens" then
        match c with
        | .vStr s => .vStr (format_lens s)
        | _ => c
      else c
    some c

def normStep (acc : PyDict) (kv : String × PyVal) : PyDict :=
  match norm_entry kv.1 kv.2 with
  | none => acc
  | some w => dictSet kv.1 w acc

/-- `normalize_api_params`: fold the per-entry transformation over the
input mapping in order, building a fresh mapping. -/
def normalize_api_params (d : PyDict) : PyDict :=
  d.foldl normStep []

/-! ## Default date window (src/utils/deeplink_mapping.py) -/

structure PyDate where
  year : Nat
  month : Nat
  day : Nat
deriving DecidableEq, Repr

def isLeap (y : Nat) : Bool :=
  (y % 4 = 0 && y % 100 ≠ 0) || y % 400 = 0

def daysInMonth (y m : Nat) : Nat :=
  if m = 2 then (if isLeap y then 29 else 28)
  else if m = 4 ∨ m = 6 ∨ m = 9 ∨ m = 11 then 30
  else 31

/-- The day before a (proleptic Gregorian) date, the effect of
`date - timedelta(days=1)`. -/
def prevDay (d : PyDate) : PyDate :=
  if 1 < d.day then ⟨d.year, d.month, d.day - 1⟩
  else if 1 < d.month then ⟨d.year, d.month - 1, daysInMonth d.year (d.month - 1)⟩
  else ⟨d.year - 1, 12, 31⟩

/-- `date - timedelta(days=n)`. -/
def subDays : Nat → PyDate → PyDate
  | 0, d => d
  | n + 1, d => subDays n (prevDay d)

/-- Decimal digits (as code points) of a natural number (structural fuel,
so that it reduces inside `decide` / `rfl` proofs). -/
def natDigitsAux : Nat → Nat → List Nat
  | 0, _ => []
  | fuel + 1, n =>
    if n < 10 then [48 + n] else natDigitsAux fuel (n / 10) ++ [48 + n % 10]

def natDigits (n : Nat) : List Nat :=
  natDigitsAux (n + 1) n

/-- Left-pad with zeros to width `w`. -/
def padZ (w : Nat) (l : List Nat) : List Nat :=
  List.replicate (w - l.length) 48 ++ l

/-- `strftime("%Y-%m-%d")` (all dates reached here have 4-digit years). -/
def fmtDate (d : PyDate) : List Nat :=
  padZ 4 (natDigits d.year) ++ [45] ++ padZ 2 (natDigits d.month) ++ [45] ++
    padZ 2 (natDigits d.day)

/-- The date computed by `_default_end_date`: the last day of the month
before `today - 30 days`.  The source's wall-clock default for an omitted
`today` is environment state and is not modelled; `today` is always
explicit here. -/
def default_end_date_core (today : PyDate) : PyDate :=
  let cutoff := subDays 30 today
  let firstOfCutoffMonth : PyDate := ⟨cutoff.year, cutoff.month, 1⟩
  prevDay firstOfCutoffMonth

/-- `_default_end_date`: the formatted string. -/
def default_end_date (today : PyDate) : List Nat :=
  fmtDate (default_end_date_core today)

/-- The source condition `k not in params or params.get(k) is None`. -/
def needsDefault (k : String) (d : PyDict) : Bool :=
  match dictGet k d with
  | none => true
  | some .vNone => true
  | some _ => false

def DEFAULT_START_DATE : List Nat := pstr "2011-12-01"

/-- `apply_default_dates`. -/
def apply_default_dates (d : PyDict) (today : PyDate) : PyDict :=
  let p := d
  let p := if needsDefault "date_received_min" p then
      dictSet "date_received_min" (.vStr DEFAULT_START_DATE) p
    else p
  if needsDefault "date_received_max" p then
    dictSet "date_received_max" (.vStr (default_end_date today)) p
  else p

/-! ## API <-> URL parameter transcoder -/

/-- The `API_TO_URL_PARAM` rename table (identity off the table). -/
def apiToUrlKey (k : String) : String :=
  if k = "search_term" then "searchText"
  else if k = "field" then "searchField"
  else if k = "sub_lens" then "subLens"
  else if k = "trend_interval" then "dateInterval"
  else k

/-- The `URL_TO_API_PARAM` rename table (identity off the table). -/
def urlToApiKey (k : String) : String :=
  if k = "searchText" then "search_term"
  else if k = "searchField" then "field"
  else if k = "subLens" then "sub_lens"
  else if k = "dateInterval" then "trend_interval"
  else if k = "page" then "frm"
  else k

/-- `_apply_pagination`: emit `page = frm // size + 1` when both parse and
`size` is neither missing nor zero (`//` is Python floor division,
`Int.fdiv`). -/
def apply_pagination (api : PyDict) (url : PyDict) : PyDict :=
  match parse_int (dictGet "frm" api), parse_int (dictGet "size" api) with
  | some frm, some size =>
    if size = 0 then url else dictSet "page" (.vInt (frm.fdiv size + 1)) url
  | _, _ => url

/-- `api_params_to_url_params`. -/
def api_params_to_url_params (d : PyDict) : PyDict :=
  let normalized := normalize_api_params d
  let url := normalized.foldl
    (fun acc kv =>
      if kv.1 = "frm" then acc
      else
        let mappedKey := apiToUrlKey kv.1
        let mv := kv.2
        let mv := if kv.1 = "trend_interval" then
            match mv with
            | .vStr s => .vStr (format_trend_interval s)
            | _ => mv
          else mv
        let mv := if kv.1 = "lens" ∨ kv.1 = "sub_lens" then
            match mv with
            | .vStr s => .vStr (format_lens s)
            | _ => mv
          else mv
        dictSet mappedKey mv acc)
    []
  apply_pagination normalized url

/-- `url_params_to_api_params`. -/
def url_params_to_api_params (d : PyDict) : PyDict :=
  let api := d.foldl
    (fun acc kv =>
      let apiKey := urlToApiKey kv.1
      match clean_value kv.2 with
      | none => acc
      | some c =>
        let c := if apiKey = "trend_interval" then
            match c with
            | .vStr s => .vStr (lowerS s)
            | _ => c
          else c
        let c := if apiKey = "lens" ∨ apiKey = "sub_lens" then
            match c with
            | .vStr s => .vStr (format_lens s)
            | _ => c
          else c
        dictSet apiKey c acc)
    []
  if dictHas "frm" api then
    match parse_int (dictGet "frm" api), parse_int (dictGet "size" api) with
    | some page, some size =>
      if size ≠ 0 then dictSet "frm" (.vInt ((page - 1) * size)) api
      else dictDrop "frm" api
    | _, _ => dictDrop "frm" api
  else api

/-! ## URL encoding and the deep-link builder -/

/-- UTF-8 bytes of a code point. -/
def utf8Bytes (n : Nat) : List Nat :=
  if n < 0x80 then [n]
  else if n < 0x800 then [0xC0 + n / 0x40, 0x80 + n % 0x40]
  else if n < 0x10000 then
    [0xE0 + n / 0x1000, 0x80 + (n / 0x40) % 0x40, 0x80 + n % 0x40]
  else
    [0xF0 + n / 0x40000, 0x80 + (n / 0x1000) % 0x40, 0x80 + (n / 0x40) % 0x40,
      0x80 + n % 0x40]

def hexDigitU (n : Nat) : Nat :=
  if n < 10 then 48 + n else 55 + n

/-- The characters `urllib.parse.quote` never encodes (`_.-~`, alphanumerics). -/
def isUrlSafe (n : Nat) : Bool :=
  (48 ≤ n && n ≤ 57) || (65 ≤ n && n ≤ 90) || (97 ≤ n && n ≤ 122) ||
    n = 95 || n = 46 || n = 45 || n = 126

/-- `urllib.parse.quote_plus`: spaces to `+`, safe characters kept, the
UTF-8 bytes of everything else percent-encoded with uppercase hex. -/
def quote_plus (s : List Nat) : List Nat :=
  s.flatMap fun c =>
    if c = 32 then [43]
    else if isUrlSafe c then [c]
    else (utf8Bytes c).flatMap fun b => [37, hexDigitU (b / 16), hexDigitU (b % 16)]

/-- Decimal string of an integer. -/
def intStr (n : Int) : List Nat :=
  (if n < 0 then [45] else []) ++ natDigits n.natAbs

/-- Python `str()` of the scalar values reaching `urlencode`.  A nested
list element would render as its Python repr; no normalized parameter
mapping contains one, and it is rendered as the empty string here. -/
def pyValStr : PyVal → List Nat
  | .vStr s => s
  | .vInt n => intStr n
  | .vBool b => if b then pstr "True" else pstr "False"
  | .vNone => pstr "None"
  | .vList _ => []

/-- `urllib.parse.urlencode(params, doseq=True)`: `&`-joined `k=v` pairs in
insertion order, one pair per element for sequence values. -/
def urlencode (d : PyDict) : List Nat :=
  List.intercalate [38]
    (d.flatMap fun kv =>
      match kv.2 with
      | .vStr s => [quote_plus (pstr kv.1) ++ [61] ++ quote_plus s]
      | .vList xs => xs.map fun e => quote_plus (pstr kv.1) ++ [61] ++ quote_plus (pyValStr e)
      | v => [quote_plus (pstr kv.1) ++ [61] ++ quote_plus (pyValStr v)])

def UI_BASE_URL : List Nat :=
  pstr "https://www.consumerfinance.gov/data-research/consumer-complaints/search/"

def TREND_KEYS : List String :=
  ["lens", "sub_lens", "trend_interval", "trend_depth", "sub_lens_depth",
    "focus", "chartType"]

/-- `build_deeplink_url`.  `tab` mirrors the optional keyword argument;
`today` is the injected date (the wall-clock default is not modelled). -/
def build_deeplink_url (apiParams : PyDict) (tab : Option (List Nat))
    (today : PyDate) : List Nat :=
  let paramsWithDates := apply_default_dates apiParams today
  let urlParams := api_params_to_url_params paramsWithDates
  let tab := if tab.isNone && TREND_KEYS.any (fun k => dictHas k apiParams) then
      some (pstr "Trends")
    else tab
  let urlParams := match tab with
    | some t => if t ≠ [] then dictSet "tab" (.vStr t) urlParams else urlParams
    | none => urlParams
  if urlParams = [] then UI_BASE_URL
  else UI_BASE_URL ++ [63] ++ urlencode urlParams

/-! ## Trend signal engine (src/server.py) -/

/-- Python slice index resolution: negative indices count from the end,
out-of-range indices clamp. -/
def pySliceIdx (n : Nat) (i : Int) : Nat :=
  if i < 0 then (n + i).toNat else min n i.toNat

/-- Python `l[a:b]`. -/
def pySlice (a b : Int) (l : List α) : List α :=
  (l.take (pySliceIdx l.length b)).drop (pySliceIdx l.length a)

def MIN_SIGNAL_POINTS : Nat := 2

def MIN_BASELINE_POINTS : Nat := 2

def MIN_STDDEV_SAMPLES : Nat := 2

/-- `_mean`. -/
def meanQ (l : List ℚ) : ℚ :=
  if l = [] then 0 else l.sum / l.length

/-- `_stddev`: sample (Bessel-corrected) standard deviation; `sqrt` is the
explicit model of float `** 0.5` (see the header). -/
def stddevQ (sqrt : ℚ → ℚ) (l : List ℚ) : ℚ :=
  if l.length < MIN_STDDEV_SAMPLES then 0
  else sqrt ((l.map fun x => (x - meanQ l) ^ 2).sum / ((l.length : ℚ) - 1))

/-- The success payload of `_compute_simple_signals`, the nested dicts
flattened: `last_bucket` is (`lastLabel`, `lastCount`), `prev_bucket` is
(`prevLabel`, `prevCount`), `signals.last_vs_prev` is (`lastVsPrevAbs`,
`lastVsPrevPct`) and `signals.last_vs_baseline` holds the rest. -/
structure SignalRecord where
  numPoints : Nat
  lastLabel : List Nat
  lastCount : ℚ
  prevLabel : List Nat
  prevCount : ℚ
  lastVsPrevAbs : ℚ
  lastVsPrevPct : Option ℚ
  baselineWindow : Int
  baselineMean : Option ℚ
  baselineSd : Option ℚ
  ratio : Option ℚ
  z : Option ℚ
  minBaselineMean : ℚ
deriving DecidableEq, Repr

/-- Result of `_compute_simple_signals`: either the
`{"error": "not_enough_points", "num_points": n}` dict or the record. -/
inductive SignalOut : Type
  | error (numPoints : Nat) : SignalOut
  | ok (r : SignalRecord) : SignalOut
deriving DecidableEq, Repr

/-- `_compute_simple_signals` (src/server.py). -/
def compute_simple_signals (sqrt : ℚ → ℚ) (bw : Int) (mbm : ℚ)
    (points : List (List Nat × ℚ)) : SignalOut :=
  if points.length < MIN_SIGNAL_POINTS then .error points.length
  else
    let labels := points.map Prod.fst
    let values := points.map Prod.snd
    let lastLabel := labels.getLastD []
    let lastVal := values.getLastD 0
    let prevLabel := labels.getD (labels.length - 2) []
    let prevVal := values.getD (values.length - 2) 0
    let lastVsPrevPct := if prevVal > 0 then some (lastVal / prevVal - 1) else none
    let baselineValues :=
      if MIN_BASELINE_POINTS < values.length then pySlice (-(bw + 1)) (-1) values
      else []
    let baselineMean := if baselineValues ≠ [] then some (meanQ baselineValues) else none
    let baselineSd :=
      if baselineValues ≠ [] then some (stddevQ sqrt baselineValues) else none
    let rz : Option ℚ × Option ℚ :=
      match baselineMean, baselineSd with
      | some m, some sd =>
        if mbm ≤ m then
          (if 0 < m then some (lastVal / m) else none,
            if 0 < sd then some ((lastVal - m) / sd) else none)
        else (none, none)
      | _, _ => (none, none)
    .ok
      { numPoints := points.length, lastLabel := lastLabel, lastCount := lastVal,
        prevLabel := prevLabel, prevCount := prevVal,
        lastVsPrevAbs := lastVal - prevVal, lastVsPrevPct := lastVsPrevPct,
        baselineWindow := bw, baselineMean := baselineMean,
        baselineSd := baselineSd, ratio := rz.1, z := rz.2,
        minBaselineMean := mbm }

/-- `compute_simple_signals` (src/temp/signal_helpers_explore.py): the
exploratory duplicate, transcribed from its own source (it writes the
literal `2` where the server names constants). -/
def explore_compute_simple_signals (sqrt : ℚ → ℚ) (bw : Int) (mbm : ℚ)
    (points : List (List Nat × ℚ)) : SignalOut :=
  if points.length < 2 then .error points.length
  else
    let labels := points.map Prod.fst
    let values := points.map Prod.snd
    let lastLabel := labels.getLastD []
    let lastVal := values.getLastD 0
    let prevLabel := labels.getD (labels.length - 2) []
    let prevVal := values.getD (values.length - 2) 0
    let lastVsPrevPct := if prevVal > 0 then some (lastVal / prevVal - 1) else none
    let baselineValues :=
      if 2 < values.length then pySlice (-(bw + 1)) (-1) values else []
    let baselineMean := if baselineValues ≠ [] then some (meanQ baselineValues) else none
    let baselineSd :=
      if baselineValues ≠ [] then some (stddevQ sqrt baselineValues) else none
    let rz : Option ℚ × Option ℚ :=
      match baselineMean, baselineSd with
      | some m, some sd =>
        if mbm ≤ m then
          (if 0 < m then some (lastVal / m) else none,
            if 0 < sd then some ((lastVal - m) / sd) else none)
        else (none, none)
      | _, _ => (none, none)
    .ok
      { numPoints := points.length, lastLabel := lastLabel, lastCount := lastVal,
        prevLabel := prevLabel, prevCount := prevVal,
        lastVsPrevAbs := lastVal - prevVal, lastVsPrevPct := lastVsPrevPct,
        baselineWindow := bw, baselineMean := baselineMean,
        baselineSd := baselineSd, ratio := rz.1, z := rz.2,
        minBaselineMean := mbm }

/-- The success payload of `_signals`
(src/temp/scripts/company_signal_pipeline.py): unlike the other two, its
dict has no `num_points` key. -/
structure PipelineRecord where
  lastLabel : List Nat
  lastCount : ℚ
  prevLabel : List Nat
  prevCount : ℚ
  lastVsPrevAbs : ℚ
  lastVsPrevPct : Option ℚ
  baselineWindow : Int
  baselineMean : Option ℚ
  baselineSd : Option ℚ
  ratio : Option ℚ
  z : Option ℚ
  minBaselineMean : ℚ
deriving DecidableEq, Repr

inductive PipelineOut : Type
  | error (numPoints : Nat) : PipelineOut
  | ok (r : PipelineRecord) : PipelineOut
deriving DecidableEq, Repr

/-- `_signals` (src/temp/scripts/company_signal_pipeline.py): the pipeline
duplicate.  Its baseline slice is unconditional (no `len(values) > 2`
gate). -/
def pipeline_signals (sqrt : ℚ → ℚ) (bw : Int) (mbm : ℚ)
    (points : List (List Nat × ℚ)) : PipelineOut :=
  if points.length < 2 then .error points.length
  else
    let labels := points.map Prod.fst
    let values := points.map Prod.snd
    let lastLabel := labels.getLastD []
    let lastVal := values.getLastD 0
    let prevLabel := labels.getD (labels.length - 2) []
    let prevVal := values.getD (values.length - 2) 0
    let lastVsPrevPct := if prevVal > 0 then some (lastVal / prevVal - 1) else none
    let baselineValues := pySlice (-(bw + 1)) (-1) values
    let baselineMean := if baselineValues ≠ [] then some (meanQ baselineValues) else none
    let baselineSd :=
      if baselineValues ≠ [] then some (stddevQ sqrt baselineValues) else none
    let rz : Option ℚ × Option ℚ :=
      match baselineMean, baselineSd with
      | some m, some sd =>
        if mbm ≤ m then
          (if 0 < m then some (lastVal / m) else none,
            if 0 < sd then some ((lastVal - m) / sd) else none)
        else (none, none)
      | _, _ => (none, none)
    .ok
      { lastLabel := lastLabel, lastCount := lastVal,
        prevLabel := prevLabel, prevCount := prevVal,
        lastVsPrevAbs := lastVal - prevVal, lastVsPrevPct := lastVsPrevPct,
        baselineWindow := bw, baselineMean := baselineMean,
        baselineSd := baselineSd, ratio := rz.1, z := rz.2,
        minBaselineMean := mbm }

/-! ## Untyped upstream payloads and series extraction -/

/-- Untyped JSON-ish values of the upstream payloads. -/
inductive J : Type
  | jNull : J
  | jBool (b : Bool) : J
  | jInt (n : Int) : J
  | jNum (q : ℚ) : J
  | jStr (s : List Nat) : J
  | jArr (l : List J) : J
  | jObj (o : List (String × J)) : J

/-- Dict lookup inside a payload: `d.get(k)` where missing keys give
`None`.  A `.get` on a non-dict raises in Python; that path is outside
every extraction reached here (the chains guard with `or {}` / defaults)
and is modelled as absent. -/
def jGet (j : J) (k : String) : Option J :=
  match j with
  | .jObj o => (o.find? (fun kv => kv.1 = k)).map Prod.snd
  | _ => none

/-- `d.get(k, default)`. -/
def jGetD (j : J) (k : String) (dflt : J) : J :=
  (jGet j k).getD dflt

/-- Python truthiness of a payload value (for `payload or {}`). -/
def jTruthy : J → Bool
  | .jNull => false
  | .jBool b => b
  | .jInt n => n ≠ 0
  | .jNum q => q ≠ 0
  | .jStr s => !s.isEmpty
  | .jArr l => !l.isEmpty
  | .jObj o => !o.isEmpty

/-- `payload or {}`. -/
def jOrEmpty (j : J) : J :=
  if jTruthy j then j else .jObj []

/-- Python `int()` of a numeric value (truncation toward zero). -/
def intOfRat (q : ℚ) : Int :=
  q.num.tdiv q.den

/-- Python `str()` of the payload values used as labels and group keys.
String payloads render as themselves; the exotic renderings (floats,
containers) never label real buckets and are modelled loosely. -/
def pyStrJ : J → List Nat
  | .jStr s => s
  | .jInt n => intStr n
  | .jBool b => if b then pstr "True" else pstr "False"
  | .jNull => pstr "None"
  | .jNum q => intStr q.num
  | .jArr _ => []
  | .jObj _ => []

/-- `_extract_points_with_key` (src/server.py): keep dict buckets whose
label is present (non-`None`) and whose `doc_count` is numeric
(`isinstance(count, int | float)`, so including booleans); the sort key is
`int(key)` when `key` is numeric, else `None`. -/
def extract_points_with_key (trendBuckets : List J) :
    List (Option Int × List Nat × ℚ) :=
  trendBuckets.filterMap fun tb =>
    match tb with
    | .jObj _ =>
      let label : Option J :=
        match jGet tb "key_as_string" with
        | some .jNull => none
        | o => o
      let countQ : Option ℚ :=
        match jGet tb "doc_count" with
        | some (.jInt n) => some (n : ℚ)
        | some (.jNum q) => some q
        | some (.jBool b) => some (if b then 1 else 0)
        | _ => none
      let keyNum : Option Int :=
        match jGet tb "key" with
        | some (.jInt n) => some n
        | some (.jNum q) => some (intOfRat q)
        | some (.jBool b) => some (if b then 1 else 0)
        | _ => none
      match label, countQ with
      | some lv, some c => some (keyNum, pyStrJ lv, c)
      | _, _ => none
    | _ => none

/-- Lexicographic `<=` on code-point lists: Python string comparison. -/
def lexLe : List Nat → List Nat → Bool
  | [], _ => true
  | _ :: _, [] => false
  | x :: xs, y :: ys =>
    if x < y then true else if y < x then false else lexLe xs ys

/-- The sort key of the numeric branch in `_extract_group_series`:
`(t[0] is None, t[0] if t[0] is not None else 0)`. -/
def mixedKey (p : Option Int × List Nat × ℚ) : Bool × Int :=
  (p.1.isNone, p.1.getD 0)

/-- Ascending comparison of the numeric-branch keys ((Bool, Int) lexicographic,
`False < True`). -/
def mixedKeyLe (a b : Bool × Int) : Bool :=
  if a.1 = b.1 then a.2 ≤ b.2 else a.1 = false

/-- The point ordering relation of the numeric branch. -/
def relMixed (a b : Option Int × List Nat × ℚ) : Prop :=
  mixedKeyLe (mixedKey a) (mixedKey b) = true

/-- The point ordering relation of the label branch. -/
def relLabel (a b : Option Int × List Nat × ℚ) : Prop :=
  lexLe a.2.1 b.2.1 = true

instance : DecidableRel relMixed := fun a b =>
  instDecidableEqBool (mixedKeyLe (mixedKey a) (mixedKey b)) true

instance : DecidableRel relLabel := fun a b =>
  instDecidableEqBool (lexLe a.2.1 b.2.1) true

/-- The per-group point sort of `_extract_group_series` (src/server.py
lines 560-564): the numeric-key branch when any bucket carries a numeric
key, else lexicographic label order.  `List.insertionSort` (insertion via
`orderedInsert` folded from the right) is stable for total preorders,
matching Python's stable `list.sort`. -/
def sortGroupPoints (pts : List (Option Int × List Nat × ℚ)) :
    List (Option Int × List Nat × ℚ) :=
  if pts.any (fun p => p.1.isSome) then List.insertionSort relMixed pts
  else List.insertionSort relLabel pts

/-- One extracted grouped series. -/
structure GroupSeries where
  group : List Nat
  docCount : J
  points : List (List Nat × ℚ)

/-- `_extract_group_series` (src/server.py). -/
def extract_group_series (payload : J) (group : String) : List GroupSeries :=
  let groupBuckets :=
    jGet (jGetD (jGetD (jGetD (jOrEmpty payload) "aggregations" (.jObj []))
      group (.jObj [])) group (.jObj [])) "buckets"
  match groupBuckets with
  | some (.jArr bs) =>
    bs.filterMap fun b =>
      match b with
      | .jObj _ =>
        let groupKey : Option J :=
          match jGet b "key" with
          | some .jNull => none
          | o => o
        let trendBuckets := jGet (jGetD b "trend_period" (.jObj [])) "buckets"
        match groupKey, trendBuckets with
        | some gk, some (.jArr tbs) =>
          let pts := sortGroupPoints (extract_points_with_key tbs)
          some
            { group := pyStrJ gk, docCount := jGetD b "doc_count" .jNull,
              points := pts.map fun p => (p.2.1, p.2.2) }
        | _, _ => none
      | _ => none
  | _ => []

/-! ## Spike ranking (src/server.py, `rank_group_spikes` / `rank_company_spikes`) -/

/-- The second component of the ranking key: `z or float("-inf")`, i.e.
minus infinity (`none` here) when `z` is `None` or `0.0`. -/
def zOrNegInf (z : Option ℚ) : Option ℚ :=
  match z with
  | some q => if q = 0 then none else some q
  | none => none

/-- Ascending order on the `-inf`-extended values (`none` below every
`some`). -/
def zbLe : Option ℚ → Option ℚ → Bool
  | none, _ => true
  | some _, none => false
  | some a, some b => a ≤ b

/-- The full ranking key `(z is None, z or float("-inf"))` and its
ascending comparison ((Bool, value) lexicographic, `False < True`). -/
def rankKey (z : Option ℚ) : Bool × Option ℚ :=
  (z.isNone, zOrNegInf z)

def rankKeyLe (a b : Bool × Option ℚ) : Bool :=
  if a.1 = b.1 then zbLe a.2 b.2 else a.1 = false

/-- A row of `rank_group_spikes`' `scored` list:
`{'group': ..., 'doc_count': ..., **signals}` (error rows are filtered
out before this list is built). -/
structure GroupScoredRow where
  group : List Nat
  docCount : J
  sig : SignalRecord

/-- `r.get('signals', {}).get('last_vs_baseline', {}).get('z')`. -/
def groupRowZ (r : GroupScoredRow) : Option ℚ :=
  SignalRecord.z r.sig

/-- The descending ranking relation: `sort(key=..., reverse=True)` is the
stable sort by the reversed key comparison. -/
def relRankGroup (a b : GroupScoredRow) : Prop :=
  rankKeyLe (rankKey (groupRowZ b)) (rankKey (groupRowZ a)) = true

instance : DecidableRel relRankGroup := fun a b =>
  instDecidableEqBool (rankKeyLe (rankKey (groupRowZ b)) (rankKey (groupRowZ a))) true

/-- The `scored.sort(key=lambda r: ((z is None), z or float('-inf')),
reverse=True)` step of `rank_group_spikes` (src/server.py lines 1395-1401). -/
def rank_group_spikes_sort (rows : List GroupScoredRow) : List GroupScoredRow :=
  List.insertionSort relRankGroup rows

/-- A row of `rank_company_spikes`' `results` list: `computed` may be the
error dict (its `z` lookup then gives `None`). -/
structure CompanyScoredRow where
  company : List Nat
  companyDocCount : Int
  computed : SignalOut

/-- `r.get('computed', {}).get('signals', {}).get('last_vs_baseline', {}).get('z')`. -/
def companyRowZ (r : CompanyScoredRow) : Option ℚ :=
  match r.computed with
  | .ok rec => SignalRecord.z rec
  | .error _ => none

def relRankCompany (a b : CompanyScoredRow) : Prop :=
  rankKeyLe (rankKey (companyRowZ b)) (rankKey (companyRowZ a)) = true

instance : DecidableRel relRankCompany := fun a b =>
  instDecidableEqBool (rankKeyLe (rankKey (companyRowZ b)) (rankKey (companyRowZ a))) true

/-- The `results.sort(...)` step of `rank_company_spikes`
(src/server.py lines 1513-1519). -/
def rank_company_spikes_sort (rows : List CompanyScoredRow) :
    List CompanyScoredRow :=
  List.insertionSort relRankCompany rows

/-! ## Citation generator (src/server.py, `generate_citations`) -/

inductive ContextType : Type
  | search : ContextType
  | trends : ContextType
  | geo : ContextType
  | suggest : ContextType
  | document : ContextType
deriving DecidableEq, Repr

structure Citation where
  ctype : List Nat
  url : List Nat
  description : List Nat
deriving DecidableEq, Repr

/-- The filter-key allow-list of `generate_citations`. -/
def CITATION_FILTER_KEYS : List String :=
  ["search_term", "date_received_min", "date_received_max", "company",
    "product", "issue", "state", "has_narrative", "company_response",
    "company_public_response", "consumer_disputed", "tags", "submitted_via",
    "timely", "zip_code"]

/-- `f"{n:,}"`: decimal digits in groups of three separated by commas. -/
def commaNat (n : Nat) : List Nat :=
  let r := (natDigits n).reverse
  List.intercalate [44]
    (((List.range ((r.length + 2) / 3)).map
      (fun i => ((r.drop (3 * i)).take 3).reverse)).reverse)

def commaInt (n : Int) : List Nat :=
  (if n < 0 then [45] else []) ++ commaNat n.natAbs

/-- `generate_citations` (src/server.py lines 719-820).  `today` is the
injected date for the deep-link builder (the source lets it default to
the wall clock). -/
def generate_citations (context_type : ContextType) (total_hits : Option Int)
    (complaint_id : Option (List Nat)) (lens : Option (List Nat))
    (params : PyDict) (today : PyDate) : List Citation :=
  let filter_params := params.filter fun kv => kv.1 ∈ CITATION_FILTER_KEYS
  let citations : List Citation :=
    match context_type with
    | .search =>
      let url := build_deeplink_url filter_params (some (pstr "List")) today
      let desc :=
        match total_hits with
        | some n =>
          pstr "View all " ++ commaInt n ++ pstr " matching complaint(s) on CFPB.gov"
        | none => pstr "View these matching complaint(s) on CFPB.gov"
      [{ ctype := pstr "search_results", url := url, description := desc }]
    | .trends =>
      let lensV : PyVal := .vStr
        (match lens with
          | some s => if s = [] then pstr "Overview" else s
          | none => pstr "Overview")
      let trend_params :=
        dictSet "trend_interval" (.vStr (pstr "month"))
          (dictSet "chartType" (.vStr (pstr "line"))
            (dictSet "lens" lensV filter_params))
      [{ ctype := pstr "trends_chart",
          url := build_deeplink_url trend_params (some (pstr "Trends")) today,
          description := pstr "Interactive trends chart on CFPB.gov" }]
    | .geo =>
      [{ ctype := pstr "geographic_map",
          url := build_deeplink_url filter_params (some (pstr "Map")) today,
          description := pstr "Interactive geographic map on CFPB.gov" }]
    | .document =>
      match complaint_id with
      | some cid =>
        if cid ≠ [] then
          [{ ctype := pstr "complaint_detail",
              url := UI_BASE_URL ++ pstr "?tab=List",
              description :=
                pstr "Search for complaint " ++ cid ++ pstr " on CFPB.gov" }]
        else []
      | none => []
    | .suggest => []
  citations ++
    (if (context_type = .trends ∨ context_type = .geo) ∧ filter_params ≠ [] then
      [{ ctype := pstr "search_results",
          url := build_deeplink_url filter_params (some (pstr "List")) today,
          description := pstr "Browse matching complaints on CFPB.gov" }]
    else [])

/-! ## Helper lemmas on dictionaries -/

theorem dictGet_set_self (k : String) (v : PyVal) (d : PyDict) :
    dictGet k (dictSet k v d) = some v := by
  induction d with
  | nil => simp [dictGet, dictSet]
  | cons kv rest ih =>
    obtain ⟨k', v'⟩ := kv
    by_cases h : k' = k
    · subst h; simp [dictGet, dictSet]
    · simp [dictGet, dictSet, h, ih]

theorem dictGet_set_ne (k k' : String) (v : PyVal) (d : PyDict) (h : k' ≠ k) :
    dictGet k (dictSet k' v d) = dictGet k d := by
  induction d with
  | nil => simp [dictGet, dictSet, h]
  | cons kv rest ih =>
    obtain ⟨k0, v0⟩ := kv
    by_cases h0 : k0 = k'
    · subst h0; simp [dictGet, dictSet, h]
    · by_cases h1 : k0 = k
      · subst h1; simp [dictGet, dictSet, h0]
      · simp [dictGet, dictSet, h0, h1, ih]

/-- The date described by the spec's words: the last day of the month
preceding a given date's month. -/
def lastDayOfPrecedingMonth (d : PyDate) : PyDate :=
  if 1 < d.month then ⟨d.year, d.month - 1, daysInMonth d.year (d.month - 1)⟩
  else ⟨d.year - 1, 12, 31⟩

/-- C6: on a mapping without date keys, `apply_default_dates` sets
`date_received_min` to the constant `2011-12-01` and `date_received_max`
to the last day of the month preceding `today - 30 days`; for
`today = 2025-12-20` the latter formats as `2025-10-31`. -/
theorem C6_apply_default_dates (params : PyDict) (today : PyDate)
    (hmin : dictGet "date_received_min" params = none)
    (hmax : dictGet "date_received_max" params = none) :
    dictGet "date_received_min" (apply_default_dates params today) =
      some (.vStr (pstr "2011-12-01")) ∧
    dictGet "date_received_max" (apply_default_dates params today) =
      some (.vStr (fmtDate (default_end_date_core today))) ∧
    default_end_date_core today = lastDayOfPrecedingMonth (subDays 30 today) ∧
    fmtDate (default_end_date_core ⟨2025, 12, 20⟩) = pstr "2025-10-31" := by
  have hset : apply_default_dates params today =
      dictSet "date_received_max" (.vStr (default_end_date today))
        (dictSet "date_received_min" (.vStr DEFAULT_START_DATE) params) := by
    unfold apply_default_dates
    have h1 : needsDefault "date_received_min" params = true := by
      unfold needsDefault; rw [hmin]
    have h2 : needsDefault "date_received_max"
        (dictSet "date_received_min" (.vStr DEFAULT_START_DATE) params) = true := by
      unfold needsDefault
      rw [dictGet_set_ne _ _ _ _ (by decide), hmax]
    simp [h1, h2]
  refine ⟨?_, ?_, ?_, by decide⟩
  · rw [hset, dictGet_set_ne _ _ _ _ (by decide), dictGet_set_self]
    rfl
  · rw [hset, dictGet_set_self]
    rfl
  · have hgen : ∀ c : PyDate, prevDay ⟨c.year, c.month, 1⟩ =
        lastDayOfPrecedingMonth c := by
      intro c
      unfold prevDay lastDayOfPrecedingMonth
      simp
    exact hgen (subDays 30 today)

/-- Witness for C6 at `params = {}`, `today = 2025-12-20`. -/
theorem C6_witness :
    dictGet "date_received_min" (apply_default_dates [] ⟨2025, 12, 20⟩) =
      some (.vStr (pstr "2011-12-01")) ∧
    dictGet "date_received_max" (apply_default_dates [] ⟨2025, 12, 20⟩) =
      some (.vStr (fmtDate (default_end_date_core ⟨2025, 12, 20⟩))) ∧
    default_end_date_core ⟨2025, 12, 20⟩ =
      lastDayOfPrecedingMonth (subDays 30 ⟨2025, 12, 20⟩) ∧
    fmtDate (default_end_date_core ⟨2025, 12, 20⟩) = pstr "2025-10-31" :=
  C6_apply_default_dates [] ⟨2025, 12, 20⟩ rfl rfl

/-- C1 (counterexample): with an empty parameter mapping and no tab,
`build_deeplink_url` does not return the bare base URL — the default date
window always populates the URL parameters first (today = 2025-12-20, the
spec's own example date). -/
theorem C1_counterexample :
    build_deeplink_url [] none ⟨2025, 12, 20⟩ ≠ UI_BASE_URL := by
  decide

/-- C1 (amended): with an empty parameter mapping and no tab,
`build_deeplink_url` returns the base URL followed by `?` and exactly the
two default date parameters. -/
theorem C1_amended :
    build_deeplink_url [] none ⟨2025, 12, 20⟩ =
      UI_BASE_URL ++
        pstr "?date_received_min=2011-12-01&date_received_max=2025-10-31" := by
  decide

/-- C10: `generate_citations` with `context_type='suggest'` returns the
empty citation list for every argument set — no branch handles that
context and the trailing List citation is only added for trends/geo. -/
theorem C10_suggest_empty (total_hits : Option Int)
    (complaint_id : Option (List Nat)) (lens : Option (List Nat))
    (params : PyDict) (today : PyDate) :
    generate_citations .suggest total_hits complaint_id lens params today = [] := by
  rfl

/-- C9 (counterexample): the three signal implementations are not
behaviorally identical.  On the two-point series
`[("a", 5), ("b", 100)]` with `baseline_window = 8` and
`min_baseline_mean = 1`, the server implementation reports a null
baseline (`len(values) > 2` gate), while the pipeline implementation
computes `baseline_mean = 5`, `baseline_sd = 0` and `ratio = 20` (and its
success record carries no `num_points` at all). -/
theorem C9_counterexample :
    compute_simple_signals id 8 1 [(pstr "a", 5), (pstr "b", 100)] =
      .ok
        { numPoints := 2, lastLabel := pstr "b", lastCount := 100,
          prevLabel := pstr "a", prevCount := 5, lastVsPrevAbs := 95,
          lastVsPrevPct := some 19, baselineWindow := 8, baselineMean := none,
          baselineSd := none, ratio := none, z := none, minBaselineMean := 1 } ∧
    pipeline_signals id 8 1 [(pstr "a", 5), (pstr "b", 100)] =
      .ok
        { lastLabel := pstr "b", lastCount := 100,
          prevLabel := pstr "a", prevCount := 5, lastVsPrevAbs := 95,
          lastVsPrevPct := some 19, baselineWindow := 8, baselineMean := some 5,
          baselineSd := some 0, ratio := some 20, z := none,
          minBaselineMean := 1 } := by
  constructor <;>
    norm_num [compute_simple_signals, pipeline_signals, MIN_SIGNAL_POINTS,
      MIN_BASELINE_POINTS, MIN_STDDEV_SAMPLES, meanQ, stddevQ, pySlice,
      pySliceIdx, pstr, show ((-7 : Int)).toNat = 0 from rfl,
      show ((-8 : Int)).toNat = 0 from rfl]

/-- C9 (amended): the server's `_compute_simple_signals` and the
exploration script's `compute_simple_signals` are behaviorally identical
on every input; the pipeline script's `_signals` is the odd one out. -/
theorem C9_amended (sqrt : ℚ → ℚ) (bw : Int) (mbm : ℚ)
    (points : List (List Nat × ℚ)) :
    compute_simple_signals sqrt bw mbm points =
      explore_compute_simple_signals sqrt bw mbm points := by
  rfl

/-- A signal record whose guardrail was not met: `z = None`. -/
def c2SigNull : SignalRecord :=
  { numPoints := 3
    lastLabel := []
    lastCount := 0
    prevLabel := []
    prevCount := 0
    lastVsPrevAbs := 0
    lastVsPrevPct := none
    baselineWindow := 8
    baselineMean := none
    baselineSd := none
    ratio := none
    z := none
    minBaselineMean := 10 }

/-- A signal record with a real z-score of 5. -/
def c2SigZ5 : SignalRecord :=
  { numPoints := 3
    lastLabel := []
    lastCount := 0
    prevLabel := []
    prevCount := 0
    lastVsPrevAbs := 0
    lastVsPrevPct := none
    baselineWindow := 8
    baselineMean := some 20
    baselineSd := some 2
    ratio := none
    z := some 5
    minBaselineMean := 10 }

/-- C2 (failing evaluation): the descending-by-z ranking sort of
`rank_group_spikes` and `rank_company_spikes` places a null-z row above a
row with z = 5: the key `((z is None), z or float("-inf"))` combined with
`reverse=True` sorts the `True` tuples first.  The claim (and the spec)
say numeric-z rows come first. -/
theorem C2_failing_eval :
    rank_group_spikes_sort
      [⟨pstr "G2", .jNull, c2SigZ5⟩, ⟨pstr "G1", .jNull, c2SigNull⟩] =
      [⟨pstr "G1", .jNull, c2SigNull⟩, ⟨pstr "G2", .jNull, c2SigZ5⟩] ∧
    rank_company_spikes_sort
      [⟨pstr "C2", 9, .ok c2SigZ5⟩, ⟨pstr "C1", 10, .error 1⟩] =
      [⟨pstr "C1", 10, .error 1⟩, ⟨pstr "C2", 9, .ok c2SigZ5⟩] :=
  ⟨rfl, rfl⟩

/-- C4: the signal computation returns the `not_enough_points` error
carrying the exact point count whenever fewer than two points are given,
and a success record whenever at least two are given (the embedding is a
total function: no exception path exists). -/
theorem C4_not_enough_points (sqrt : ℚ → ℚ) (bw : Int) (mbm : ℚ)
    (points : List (List Nat × ℚ)) :
    (points.length < 2 →
      compute_simple_signals sqrt bw mbm points = .error points.length) ∧
    (2 ≤ points.length →
      ∃ r, compute_simple_signals sqrt bw mbm points = .ok r) := by
  constructor
  · intro h
    unfold compute_simple_signals
    rw [if_pos (by simpa [MIN_SIGNAL_POINTS] using h)]
  · intro h
    unfold compute_simple_signals
    rw [if_neg (by simp only [MIN_SIGNAL_POINTS]; omega)]
    exact ⟨_, rfl⟩

/-- Witness for C4: the empty series errors with count 0; a two-point
series yields a success record. -/
theorem C4_witness :
    compute_simple_signals id 8 10 [] = .error 0 ∧
    ∃ r, compute_simple_signals id 8 10
      [(pstr "2024-01", 5), (pstr "2024-02", 7)] = .ok r :=
  ⟨(C4_not_enough_points id 8 10 []).1 (by decide),
    (C4_not_enough_points id 8 10 [(pstr "2024-01", 5), (pstr "2024-02", 7)]).2
      (by decide)⟩

/-- The time bucket labelled `b`, carrying no numeric `key`. -/
def c8BucketNoKey : J :=
  .jObj [("key_as_string", .jStr (pstr "b")), ("doc_count", .jInt 1)]

/-- The time bucket labelled `a`, carrying the numeric key 5. -/
def c8BucketKeyed : J :=
  .jObj [("key", .jInt 5), ("key_as_string", .jStr (pstr "a")),
    ("doc_count", .jInt 2)]

/-- A trends payload with one `product` group holding the two buckets
above (the key-less one listed first). -/
def c8Payload : J :=
  .jObj [("aggregations", .jObj [("product", .jObj [("product", .jObj
    [("buckets", .jArr [.jObj [("key", .jStr (pstr "Prod")),
      ("doc_count", .jInt 10),
      ("trend_period", .jObj [("buckets",
        .jArr [c8BucketNoKey, c8BucketKeyed])])]])])])])]

/-- C8 (counterexample): in grouped-series extraction with mixed key
presence, the point lacking a numeric key sorts last, not first.  The
bucket labelled `b` has no `key`; the bucket labelled `a` has key 5; the
extracted per-group points put `a` first and `b` last, while the claim
demands the key-less `b` first. -/
theorem C8_counterexample :
    (extract_group_series c8Payload "product").map (fun g => (g.group, g.points)) =
      [(pstr "Prod", [(pstr "a", 2), (pstr "b", 1)])] :=
  rfl

/-- C3: for `size > 0` and `frm` an exact multiple of `size`, the forward
transcoder omits `frm` and emits `page = frm // size + 1`, and the inverse
transcoder recomputes `frm = (page - 1) * size`, recovering the original
offset. -/
theorem C3_pagination_roundtrip (frm size : Int) (hpos : 0 < size)
    (hdvd : size ∣ frm) :
    dictGet "frm"
      (api_params_to_url_params [("frm", .vInt frm), ("size", .vInt size)]) =
      none ∧
    dictGet "page"
      (api_params_to_url_params [("frm", .vInt frm), ("size", .vInt size)]) =
      some (.vInt (frm.fdiv size + 1)) ∧
    dictGet "frm"
      (url_params_to_api_params
        (api_params_to_url_params [("frm", .vInt frm), ("size", .vInt size)])) =
      some (.vInt frm) := by
  have hne : size ≠ 0 := by omega
  obtain ⟨k, rfl⟩ := hdvd
  have hfwd :
      api_params_to_url_params [("frm", .vInt (size * k)), ("size", .vInt size)] =
        [("size", .vInt size), ("page", .vInt ((size * k).fdiv size + 1))] := by
    simp [api_params_to_url_params, normalize_api_params, normStep, norm_entry,
      clean_value, apply_pagination, parse_int, dictGet, dictSet, List.foldl,
      apiToUrlKey, hne]
  have hcancel : (size * k).fdiv size = k := Int.mul_fdiv_cancel_left k hne
  refine ⟨?_, ?_, ?_⟩
  · rw [hfwd]; rfl
  · rw [hfwd]; rfl
  · rw [hfwd, hcancel]
    have hinv :
        url_params_to_api_params
          [("size", .vInt size), ("page", .vInt (k + 1))] =
          [("size", .vInt size), ("frm", .vInt ((k + 1 - 1) * size))] := by
      simp [url_params_to_api_params, clean_value, parse_int, dictGet, dictSet,
        dictHas, urlToApiKey, List.foldl, hne]
    rw [hinv]
    have : (k + 1 - 1) * size = size * k := by ring
    rw [this]
    rfl

/-- Witness for C3 at `frm = 50`, `size = 50` (the spec's example:
`page = 2`, inverse recovers `frm = 50`). -/
theorem C3_witness :
    dictGet "frm"
      (api_params_to_url_params [("frm", .vInt 50), ("size", .vInt 50)]) =
      none ∧
    dictGet "page"
      (api_params_to_url_params [("frm", .vInt 50), ("size", .vInt 50)]) =
      some (.vInt ((50 : Int).fdiv 50 + 1)) ∧
    dictGet "frm"
      (url_params_to_api_params
        (api_params_to_url_params [("frm", .vInt 50), ("size", .vInt 50)])) =
      some (.vInt 50) :=
  C3_pagination_roundtrip 50 50 (by decide) ⟨1, by decide⟩

/-! ## Mean bound for the guardrail claim -/

theorem sum_lt_length_mul (l : List ℚ) (m : ℚ) (hne : l ≠ [])
    (h : ∀ v ∈ l, v < m) : l.sum < l.length * m := by
  induction l with
  | nil => simp at hne
  | cons x xs ih =>
    rcases eq_or_ne xs [] with rfl | hxs
    · simpa using h x (by simp)
    · have h1 : x < m := h x (by simp)
      have h2 := ih hxs (fun v hv => h v (by simp [hv]))
      simp only [List.sum_cons, List.length_cons]
      push_cast
      linarith

theorem meanQ_lt (l : List ℚ) (m : ℚ) (hne : l ≠ []) (h : ∀ v ∈ l, v < m) :
    meanQ l < m := by
  have hlen : 0 < l.length := List.length_pos.mpr hne
  have hpos : (0 : ℚ) < l.length := by exact_mod_cast hlen
  have hsum := sum_lt_length_mul l m hne h
  rw [meanQ, if_neg hne, div_lt_iff₀ hpos]
  linarith [hsum]

/-- C5: when every value of the baseline slice (the up-to-`baseline_window`
values strictly preceding the last point) is below `min_baseline_mean`,
the computed record has `ratio = None` and `z = None`, whatever the last
count is. -/
theorem C5_baseline_guardrail (sqrt : ℚ → ℚ) (bw : Int) (mbm : ℚ)
    (points : List (List Nat × ℚ)) (h2 : 2 ≤ points.length)
    (hlow : ∀ v ∈ pySlice (-(bw + 1)) (-1) (points.map Prod.snd), v < mbm) :
    ∃ r, compute_simple_signals sqrt bw mbm points = .ok r ∧
      SignalRecord.ratio r = none ∧ SignalRecord.z r = none := by
  have h2' : ¬ points.length < MIN_SIGNAL_POINTS := by
    simp only [MIN_SIGNAL_POINTS]; omega
  unfold compute_simple_signals
  rw [if_neg h2']
  by_cases hlen : MIN_BASELINE_POINTS < (points.map Prod.snd).length
  · by_cases hbvE : pySlice (-(bw + 1)) (-1) (points.map Prod.snd) = []
    · simp only [if_pos hlen, hbvE]
      exact ⟨_, rfl, rfl, rfl⟩
    · have hm : meanQ (pySlice (-(bw + 1)) (-1) (points.map Prod.snd)) < mbm :=
        meanQ_lt _ _ hbvE hlow
      simp only [if_pos hlen, if_pos hbvE, if_neg (not_le.mpr hm)]
      exact ⟨_, rfl, rfl, rfl⟩
  · simp only [if_neg hlen]
    exact ⟨_, rfl, rfl, rfl⟩

/-- Witness for C5: baseline values 1 and 2 (below the default minimum of
10) with a last count of 100 still yield null `ratio` and `z`. -/
theorem C5_witness :
    ∃ r, compute_simple_signals id 8 10
        [(pstr "a", 1), (pstr "b", 2), (pstr "c", 100)] = .ok r ∧
      SignalRecord.ratio r = none ∧ SignalRecord.z r = none :=
  C5_baseline_guardrail id 8 10
    [(pstr "a", 1), (pstr "b", 2), (pstr "c", 100)] (by decide) (by decide)

/-! ## Order facts for the grouped-series point sort -/

theorem mixedKeyLe_total (x y : Bool × Int) :
    mixedKeyLe x y = true ∨ mixedKeyLe y x = true := by
  obtain ⟨xb, xi⟩ := x
  obtain ⟨yb, yi⟩ := y
  cases xb <;> cases yb <;> simp [mixedKeyLe] <;> omega

theorem mixedKeyLe_trans {x y w : Bool × Int} (h1 : mixedKeyLe x y = true)
    (h2 : mixedKeyLe y w = true) : mixedKeyLe x w = true := by
  obtain ⟨xb, xi⟩ := x
  obtain ⟨yb, yi⟩ := y
  obtain ⟨wb, wi⟩ := w
  cases xb <;> cases yb <;> cases wb <;> simp [mixedKeyLe] at * <;> omega

instance : IsTotal (Option Int × List Nat × ℚ) relMixed :=
  ⟨fun a b => mixedKeyLe_total (mixedKey a) (mixedKey b)⟩

instance : IsTrans (Option Int × List Nat × ℚ) relMixed :=
  ⟨fun _ _ _ h1 h2 => mixedKeyLe_trans h1 h2⟩

theorem lexLe_total : ∀ a b : List Nat, lexLe a b = true ∨ lexLe b a = true
  | [], _ => .inl rfl
  | _ :: _, [] => .inr rfl
  | x :: xs, y :: ys => by
    rcases Nat.lt_trichotomy x y with h | h | h
    · left; simp [lexLe, h]
    · subst h
      have hirr : ¬ x < x := Nat.lt_irrefl x
      rcases lexLe_total xs ys with h' | h'
      · left; simp [lexLe, hirr, h']
      · right; simp [lexLe, hirr, h']
    · right; simp [lexLe, h]

theorem lexLe_trans : ∀ a b c : List Nat, lexLe a b = true → lexLe b c = true →
    lexLe a c = true
  | [], _, _ => by simp [lexLe]
  | x :: xs, [], _ => by simp [lexLe]
  | x :: xs, y :: ys, [] => by simp [lexLe]
  | x :: xs, y :: ys, z :: zs => by
    intro h1 h2
    rcases Nat.lt_trichotomy x y with hxy | hxy | hxy <;>
      rcases Nat.lt_trichotomy y z with hyz | hyz | hyz
    · simp [lexLe, Nat.lt_trans hxy hyz]
    · subst hyz; simp [lexLe, hxy]
    · simp [lexLe, Nat.lt_asymm hyz, hyz] at h2
    · subst hxy; simp [lexLe, hyz]
    · subst hxy; subst hyz
      have hirr : ¬ x < x := Nat.lt_irrefl x
      simp only [lexLe, hirr, if_false] at h1 h2 ⊢
      exact lexLe_trans xs ys zs h1 h2
    · subst hxy
      simp [lexLe, hyz, Nat.lt_asymm hyz, Nat.lt_irrefl] at h2
    · simp [lexLe, hxy, Nat.lt_asymm hxy] at h1
    · subst hyz
      simp [lexLe, hxy, Nat.lt_asymm hxy] at h1
    · simp [lexLe, hxy, Nat.lt_asymm hxy] at h1

instance : IsTotal (Option Int × List Nat × ℚ) relLabel :=
  ⟨fun a b => lexLe_total a.2.1 b.2.1⟩

instance : IsTrans (Option Int × List Nat × ℚ) relLabel :=
  ⟨fun a b c h1 h2 => lexLe_trans a.2.1 b.2.1 c.2.1 h1 h2⟩

/-- The ordering stated by the (amended) claim: numerically keyed points
ascending among themselves, every key-less point after every keyed one. -/
def pointKeyOrder (a b : Option Int × List Nat × ℚ) : Prop :=
  match a.1, b.1 with
  | some m, some n => m ≤ n
  | some _, none => True
  | none, none => True
  | none, some _ => False

theorem relMixed_imp_pointKeyOrder {a b : Option Int × List Nat × ℚ}
    (h : relMixed a b) : pointKeyOrder a b := by
  obtain ⟨ka, rest⟩ := a
  obtain ⟨kb, rest'⟩ := b
  cases ka <;> cases kb <;>
    simp_all [relMixed, mixedKeyLe, mixedKey, pointKeyOrder]

/-- C8 (amended): the per-group point sort of grouped-series extraction is
a permutation of the extracted points; when at least one point carries a
numeric key the result is ordered with keyed points ascending by key and
every key-less point after all keyed points (not before them); when no
point carries a key the result is in lexicographic label order. -/
theorem C8_group_point_order (pts : List (Option Int × List Nat × ℚ)) :
    (sortGroupPoints pts).Perm pts ∧
    ((∃ p ∈ pts, p.1.isSome) → (sortGroupPoints pts).Sorted pointKeyOrder) ∧
    ((∀ p ∈ pts, p.1 = none) → (sortGroupPoints pts).Sorted relLabel) := by
  refine ⟨?_, ?_, ?_⟩
  · unfold sortGroupPoints
    split_ifs <;> exact List.perm_insertionSort _ _
  · intro h
    unfold sortGroupPoints
    rw [if_pos (by simpa [List.any_eq_true] using h)]
    exact (List.sorted_insertionSort relMixed pts).imp
      (fun hab => relMixed_imp_pointKeyOrder hab)
  · intro h
    unfold sortGroupPoints
    have hany : ¬ (pts.any (fun p => p.1.isSome)) = true := by
      intro hc
      obtain ⟨p, hp, hs⟩ := List.any_eq_true.mp hc
      rw [h p hp] at hs
      simp at hs
    rw [if_neg hany]
    exact List.sorted_insertionSort relLabel pts

/-- Witness for C8: a mixed-key point list sorts keyed-first, and an
all-unkeyed list sorts by label. -/
theorem C8_witness :
    (sortGroupPoints [(some 5, pstr "a", (2 : ℚ)), (none, pstr "b", 1)]).Sorted
      pointKeyOrder ∧
    (sortGroupPoints [(none, pstr "b", (1 : ℚ)), (none, pstr "a", 2)]).Sorted
      relLabel :=
  ⟨(C8_group_point_order [(some 5, pstr "a", (2 : ℚ)), (none, pstr "b", 1)]).2.1
      ⟨(some 5, pstr "a", (2 : ℚ)), by decide⟩,
    (C8_group_point_order [(none, pstr "b", (1 : ℚ)), (none, pstr "a", 2)]).2.2
      (by decide)⟩

/-! ## String-level lemmas for normalization idempotence -/

theorem lowerN_idem (n : Nat) : lowerN (lowerN n) = lowerN n := by
  unfold lowerN
  split_ifs <;> omega

theorem isSp_false_of_ge (n : Nat) (h : 65 ≤ n) : isSp n = false := by
  unfold isSp
  simp only [Bool.or_eq_false_iff, decide_eq_false_iff_not]
  omega

theorem isSp_lowerN (n : Nat) : isSp (lowerN n) = isSp n := by
  unfold lowerN
  split_ifs with h
  · rw [isSp_false_of_ge (n + 32) (by omega), isSp_false_of_ge n (by omega)]
  · rfl

theorem isSep_lowerN (n : Nat) : isSep (lowerN n) = isSep n := by
  unfold isSep
  rw [isSp_lowerN]
  congr 1
  unfold lowerN
  split_ifs with h
  · simp only [decide_eq_decide]
    omega
  · rfl

theorem lowerS_idem (l : List Nat) : lowerS (lowerS l) = lowerS l := by
  unfold lowerS
  rw [List.map_map]
  exact List.map_congr_left fun n _ => lowerN_idem n

theorem lowerS_length (l : List Nat) : (lowerS l).length = l.length :=
  List.length_map l lowerN

theorem head?_dropWhile_false (p : Nat → Bool) :
    ∀ (l : List Nat) (a : Nat), (l.dropWhile p).head? = some a → p a = false := by
  intro l
  induction l with
  | nil => simp [List.dropWhile]
  | cons x xs ih =>
    intro a h
    by_cases hx : p x
    · rw [List.dropWhile_cons_of_pos hx] at h
      exact ih a h
    · rw [List.dropWhile_cons_of_neg hx] at h
      simp only [List.head?_cons, Option.some.injEq] at h
      subst h
      simpa using hx

theorem dropWhile_self_of_head (p : Nat → Bool) (l : List Nat)
    (h : ∀ a, l.head? = some a → p a = false) : l.dropWhile p = l := by
  cases l with
  | nil => rfl
  | cons x xs =>
    exact List.dropWhile_cons_of_neg (by simp [h x rfl])

/-- No whitespace at either edge. -/
def NoEdgeSp (l : List Nat) : Prop :=
  (∀ a, l.head? = some a → isSp a = false) ∧
  (∀ a, l.getLast? = some a → isSp a = false)

theorem isPrefix_head? {l₁ l₂ : List Nat} (h : l₁ <+: l₂) (hne : l₁ ≠ []) :
    l₁.head? = l₂.head? := by
  obtain ⟨t, rfl⟩ := h
  cases l₁ with
  | nil => simp at hne
  | cons x xs => simp

theorem stripS_noEdge (l : List Nat) : NoEdgeSp (stripS l) := by
  unfold stripS
  constructor
  · intro a ha
    have hBne : ((l.dropWhile isSp).reverse.dropWhile isSp) ≠ [] := by
      intro h0
      rw [h0] at ha
      simp at ha
    have hpre : ((l.dropWhile isSp).reverse.dropWhile isSp).reverse <+:
        (l.dropWhile isSp) := by
      have hsuf := List.dropWhile_suffix (l := (l.dropWhile isSp).reverse)
        (p := isSp)
      have := hsuf.reverse
      simpa using this
    have hrevne : ((l.dropWhile isSp).reverse.dropWhile isSp).reverse ≠ [] := by
      simpa using hBne
    rw [isPrefix_head? hpre hrevne] at ha
    exact head?_dropWhile_false isSp l a ha
  · intro a ha
    rw [List.getLast?_reverse] at ha
    exact head?_dropWhile_false isSp _ a ha

theorem stripS_self_of_noEdge (l : List Nat) (h : NoEdgeSp l) : stripS l = l := by
  unfold stripS
  rw [dropWhile_self_of_head isSp l h.1]
  rw [dropWhile_self_of_head isSp l.reverse
    (by intro a ha; rw [List.head?_reverse] at ha; exact h.2 a ha)]
  exact List.reverse_reverse l

theorem stripS_idem (l : List Nat) : stripS (stripS l) = stripS l :=
  stripS_self_of_noEdge (stripS l) (stripS_noEdge l)

theorem stripS_lowerS (l : List Nat) : stripS (lowerS l) = lowerS (stripS l) := by
  unfold stripS lowerS
  have hfun : (isSp ∘ lowerN) = isSp := funext fun n => isSp_lowerN n
  have hdw : ∀ m : List Nat, (m.map lowerN).dropWhile isSp =
      (m.dropWhile isSp).map lowerN := by
    intro m
    rw [List.dropWhile_map, hfun]
  rw [hdw, ← List.map_reverse, hdw, ← List.map_reverse]

theorem subSepAux_no_sep : ∀ (b : Bool) (l : List Nat) (n : Nat),
    n ∈ subSepAux b l → isSep n = false := by
  intro b l
  induction l generalizing b with
  | nil => simp [subSepAux]
  | cons c cs ih =>
    intro n hn
    unfold subSepAux at hn
    by_cases hc : isSep c
    · rw [if_pos hc] at hn
      by_cases hb : b
      · subst hb
        rw [if_pos rfl] at hn
        exact ih true n hn
      · simp only [hb, if_false] at hn
        rcases List.mem_cons.mp hn with rfl | hn'
        · rfl
        · exact ih true n hn'
    · rw [if_neg hc] at hn
      rcases List.mem_cons.mp hn with rfl | hn'
      · simpa using hc
      · exact ih false n hn'

theorem subSep_no_sep (l : List Nat) (n : Nat) (hn : n ∈ subSep l) :
    isSep n = false :=
  subSepAux_no_sep false l n hn

theorem subSepAux_self : ∀ (l : List Nat) (b : Bool),
    (∀ n ∈ l, isSep n = false) → subSepAux b l = l := by
  intro l
  induction l with
  | nil => intro _ _; rfl
  | cons c cs ih =>
    intro b h
    unfold subSepAux
    rw [if_neg (by simp [h c (by simp)])]
    rw [ih false (fun n hn => h n (by simp [hn]))]

theorem subSep_self (l : List Nat) (h : ∀ n ∈ l, isSep n = false) :
    subSep l = l :=
  subSepAux_self l false h

theorem subSep_ne_nil (l : List Nat) (h : l ≠ []) : subSep l ≠ [] := by
  cases l with
  | nil => simp at h
  | cons c cs =>
    unfold subSep subSepAux
    by_cases hc : isSep c
    · rw [if_pos hc]
      simp
    · rw [if_neg hc]
      simp

theorem isSp_of_isSep (n : Nat) (h : isSep n = false) : isSp n = false := by
  unfold isSep at h
  rcases Bool.or_eq_false_iff.mp h with ⟨h1, _⟩
  exact h1

theorem mem_of_head? {l : List Nat} {a : Nat} (h : l.head? = some a) : a ∈ l := by
  cases l with
  | nil => simp at h
  | cons x xs =>
    simp only [List.head?_cons, Option.some.injEq] at h
    simp [h]

theorem mem_of_getLast? {l : List Nat} {a : Nat} (h : l.getLast? = some a) :
    a ∈ l := by
  rw [← List.head?_reverse] at h
  have := mem_of_head? h
  simpa using this

theorem stripS_self_of_no_sp (l : List Nat) (h : ∀ n ∈ l, isSp n = false) :
    stripS l = l :=
  stripS_self_of_noEdge l
    ⟨fun a ha => h a (mem_of_head? ha), fun a ha => h a (mem_of_getLast? ha)⟩

/-- The invariant of string values produced by `_clean_value`: stripped,
non-empty, and boolean-like only if already lower-cased. -/
def CleanStr (t : List Nat) : Prop :=
  stripS t = t ∧ t ≠ [] ∧
    (lowerS t = t ∨ (lowerS t ≠ pstr "true" ∧ lowerS t ≠ pstr "false"))

theorem clean_str_out {s : List Nat} {w : PyVal}
    (h : clean_value (.vStr s) = some w) : ∃ t, w = .vStr t ∧ CleanStr t := by
  unfold clean_value at h
  by_cases hc : stripS s = []
  · rw [if_pos hc] at h
    simp at h
  · rw [if_neg hc] at h
    by_cases hb : lowerS (stripS s) = pstr "true" ∨ lowerS (stripS s) = pstr "false"
    · rw [if_pos hb] at h
      refine ⟨lowerS (stripS s), by simpa using h.symm, ?_, ?_, ?_⟩
      · rw [stripS_lowerS, stripS_idem]
      · intro h0
        apply hc
        have hlen := congrArg List.length h0
        rw [lowerS_length] at hlen
        exact List.length_eq_zero.mp hlen
      · left
        exact lowerS_idem _
    · rw [if_neg hb] at h
      refine ⟨stripS s, by simpa using h.symm, stripS_idem s, hc, ?_⟩
      right
      exact ⟨fun h0 => hb (Or.inl h0), fun h0 => hb (Or.inr h0)⟩

theorem clean_str_fix {t : List Nat} (h : CleanStr t) :
    clean_value (.vStr t) = some (.vStr t) := by
  obtain ⟨hstrip, hne, hlow⟩ := h
  unfold clean_value
  rw [hstrip, if_neg hne]
  rcases hlow with hlow | ⟨hnt, hnf⟩
  · rw [hlow]
    dsimp only
    split_ifs <;> rfl
  · rw [if_neg (by rintro (h0 | h0) <;> [exact hnt h0; exact hnf h0])]

theorem clean_list_self : ∀ l : List PyVal,
    (∀ x ∈ l, clean_value x = some x) → clean_list l = l := by
  intro l
  induction l with
  | nil => intro _; rfl
  | cons x xs ih =>
    intro h
    unfold clean_list
    rw [h x (by simp)]
    rw [ih (fun y hy => h y (by simp [hy]))]

mutual

theorem clean_value_stable : ∀ v w : PyVal,
    clean_value v = some w → clean_value w = some w
  | .vNone, w => by simp [clean_value]
  | .vBool b, w => by
    intro h
    cases b <;> simp only [clean_value, Option.some.injEq] at h <;>
      subst h <;> rfl
  | .vInt n, w => by
    intro h
    simp only [clean_value, Option.some.injEq] at h
    subst h
    rfl
  | .vStr s, w => fun h => by
    obtain ⟨t, rfl, hcs⟩ := clean_str_out h
    exact clean_str_fix hcs
  | .vList xs, w => fun h => by
    unfold clean_value at h
    by_cases he : clean_list xs = []
    · rw [if_pos he] at h
      simp at h
    · rw [if_neg he] at h
      have hw : w = .vList (clean_list xs) := by simpa using h.symm
      subst hw
      unfold clean_value
      have hfix : clean_list (clean_list xs) = clean_list xs :=
        clean_list_self _ (fun x hx => clean_list_mem_stable xs x hx)
      rw [hfix, if_neg he]

theorem clean_list_mem_stable : ∀ (xs : List PyVal) (w : PyVal),
    w ∈ clean_list xs → clean_value w = some w
  | [], w => by simp [clean_list]
  | x :: xs, w => by
    intro hw
    unfold clean_list at hw
    cases hx : clean_value x with
    | none =>
      rw [hx] at hw
      exact clean_list_mem_stable xs w hw
    | some c =>
      rw [hx] at hw
      rcases List.mem_cons.mp hw with rfl | hw'
      · exact clean_value_stable x w hx
      · exact clean_list_mem_stable xs w hw'

end

theorem no_sep_format (t : List Nat) : ∀ n ∈ lowerS (subSep t), isSep n = false := by
  intro n hn
  obtain ⟨m, hm, rfl⟩ := List.mem_map.mp hn
  rw [isSep_lowerN]
  exact subSep_no_sep t m hm

theorem cleanStr_format (t : List Nat) (hne : t ≠ []) :
    CleanStr (lowerS (subSep t)) := by
  refine ⟨?_, ?_, Or.inl (lowerS_idem _)⟩
  · apply stripS_self_of_no_sp
    intro n hn
    exact isSp_of_isSep n (no_sep_format t n hn)
  · intro h0
    have hlen := congrArg List.length h0
    rw [lowerS_length] at hlen
    exact subSep_ne_nil t hne (List.length_eq_zero.mp hlen)

theorem cleanStr_lower {t : List Nat} (h : CleanStr t) : CleanStr (lowerS t) := by
  refine ⟨?_, ?_, Or.inl (lowerS_idem t)⟩
  · rw [stripS_lowerS, h.1]
  · intro h0
    have hlen := congrArg List.length h0
    rw [lowerS_length] at hlen
    exact h.2.1 (List.length_eq_zero.mp hlen)

theorem format_lens_eq (t : List Nat) (hstrip : stripS t = t) (hne : t ≠ []) :
    format_lens t = lowerS (subSep t) := by
  unfold format_lens
  rw [hstrip, if_neg hne]

theorem format_lens_fix (t : List Nat) (hne : t ≠ []) :
    format_lens (lowerS (subSep t)) = lowerS (subSep t) := by
  have hcs := cleanStr_format t hne
  rw [format_lens_eq _ hcs.1 hcs.2.1]
  rw [subSep_self _ (no_sep_format t)]
  exact lowerS_idem _

theorem clean_out_str {v : PyVal} {s : List Nat}
    (h : clean_value v = some (.vStr s)) : CleanStr s := by
  cases v with
  | vNone => simp [clean_value] at h
  | vInt n => simp [clean_value] at h
  | vBool b =>
    cases b <;> simp only [clean_value, Option.some.injEq, PyVal.vStr.injEq] at h <;>
      rw [← h] <;> exact ⟨by decide, by decide, Or.inl (by decide)⟩
  | vStr s0 =>
    obtain ⟨t, ht, hcs⟩ := clean_str_out h
    obtain rfl : s = t := by simpa [PyVal.vStr.injEq] using ht
    exact hcs
  | vList xs =>
    unfold clean_value at h
    by_cases he : clean_list xs = []
    · rw [if_pos he] at h
      simp at h
    · rw [if_neg he] at h
      simp at h

theorem clean_out_not_none {v : PyVal} (h : clean_value v = some .vNone) :
    False := by
  cases v with
  | vNone => simp [clean_value] at h
  | vInt n => simp [clean_value] at h
  | vBool b => cases b <;> simp [clean_value] at h
  | vStr s0 =>
    obtain ⟨t, ht, _⟩ := clean_str_out h
    simp at ht
  | vList xs =>
    unfold clean_value at h
    by_cases he : clean_list xs = []
    · rw [if_pos he] at h
      simp at h
    · rw [if_neg he] at h
      simp at h

theorem clean_out_not_bool {v : PyVal} {b : Bool}
    (h : clean_value v = some (.vBool b)) : False := by
  cases v with
  | vNone => simp [clean_value] at h
  | vInt n => simp [clean_value] at h
  | vBool b0 => cases b0 <;> simp [clean_value] at h
  | vStr s0 =>
    obtain ⟨t, ht, _⟩ := clean_str_out h
    simp at ht
  | vList xs =>
    unfold clean_value at h
    by_cases he : clean_list xs = []
    · rw [if_pos he] at h
      simp at h
    · rw [if_neg he] at h
      simp at h

theorem norm_entry_stable (k : String) (v w : PyVal)
    (h : norm_entry k v = some w) : norm_entry k w = some w := by
  unfold norm_entry at h ⊢
  cases hc : clean_value v with
  | none =>
    rw [hc] at h
    simp at h
  | some c =>
    rw [hc] at h
    by_cases hti : k = "trend_interval"
    · subst hti
      have hnl : ¬("trend_interval" = "lens" ∨ "trend_interval" = "sub_lens") := by
        decide
      cases c with
      | vStr s =>
        simp only [if_pos rfl, reduceIte, if_neg hnl, Option.some.injEq] at h
        subst h
        have hcs := clean_out_str hc
        rw [clean_str_fix (cleanStr_lower hcs)]
        simp only [if_pos rfl, reduceIte, if_neg hnl, lowerS_idem]
      | vNone => exact absurd hc.symm (fun h0 => clean_out_not_none h0.symm)
      | vBool b => exact absurd hc.symm (fun h0 => clean_out_not_bool h0.symm)
      | vInt n =>
        simp only [if_pos rfl, reduceIte, if_neg hnl, Option.some.injEq] at h
        subst h
        rw [clean_value_stable v _ hc]
        simp only [if_pos rfl, reduceIte, if_neg hnl]
      | vList xs =>
        simp only [if_pos rfl, reduceIte, if_neg hnl, Option.some.injEq] at h
        subst h
        rw [clean_value_stable v _ hc]
        simp only [if_pos rfl, reduceIte, if_neg hnl]
    · by_cases hl : k = "lens" ∨ k = "sub_lens"
      · cases c with
        | vStr s =>
          simp only [if_neg hti, if_pos hl, Option.some.injEq] at h
          subst h
          have hcs := clean_out_str hc
          rw [format_lens_eq s hcs.1 hcs.2.1]
          rw [clean_str_fix (cleanStr_format s hcs.2.1)]
          simp only [if_neg hti, if_pos hl]
          rw [format_lens_fix s hcs.2.1]
        | vNone => exact absurd hc.symm (fun h0 => clean_out_not_none h0.symm)
        | vBool b => exact absurd hc.symm (fun h0 => clean_out_not_bool h0.symm)
        | vInt n =>
          simp only [if_neg hti, if_pos hl, Option.some.injEq] at h
          subst h
          rw [clean_value_stable v _ hc]
          simp only [if_neg hti, if_pos hl]
        | vList xs =>
          simp only [if_neg hti, if_pos hl, Option.some.injEq] at h
          subst h
          rw [clean_value_stable v _ hc]
          simp only [if_neg hti, if_pos hl]
      · simp only [if_neg hti, if_neg hl, Option.some.injEq] at h
        subst h
        rw [clean_value_stable v _ hc]
        simp only [if_neg hti, if_neg hl]

/-! ## Dictionary-level lemmas for normalization idempotence -/

def dKeys (d : PyDict) : List String :=
  d.map Prod.fst

theorem dictSet_mem {x : String × PyVal} {k : String} {v : PyVal} :
    ∀ {d : PyDict}, x ∈ dictSet k v d → x = (k, v) ∨ x ∈ d := by
  intro d
  induction d with
  | nil => simp [dictSet]
  | cons kv rest ih =>
    obtain ⟨k0, v0⟩ := kv
    intro h
    unfold dictSet at h
    by_cases h0 : k0 = k
    · rw [if_pos h0] at h
      rcases List.mem_cons.mp h with rfl | h'
      · exact Or.inl rfl
      · exact Or.inr (by simp [h'])
    · rw [if_neg h0] at h
      rcases List.mem_cons.mp h with rfl | h'
      · exact Or.inr (by simp)
      · rcases ih h' with h'' | h''
        · exact Or.inl h''
        · exact Or.inr (by simp [h''])

theorem dKeys_dictSet {k' k : String} {v : PyVal} :
    ∀ {d : PyDict}, k' ∈ dKeys (dictSet k v d) → k' = k ∨ k' ∈ dKeys d := by
  intro d h
  obtain ⟨⟨ka, va⟩, ha, rfl⟩ := List.mem_map.mp h
  rcases dictSet_mem ha with h' | h'
  · exact Or.inl (by simp [Prod.ext_iff] at h'; exact h'.1)
  · exact Or.inr (List.mem_map.mpr ⟨(ka, va), h', rfl⟩)

theorem dKeys_nodup_dictSet (k : String) (v : PyVal) :
    ∀ d : PyDict, (dKeys d).Nodup → (dKeys (dictSet k v d)).Nodup := by
  intro d
  induction d with
  | nil => intro _; simp [dictSet, dKeys]
  | cons kv rest ih =>
    obtain ⟨k0, v0⟩ := kv
    intro h
    have hnd : (dKeys rest).Nodup := (List.nodup_cons.mp h).2
    have hnm : k0 ∉ dKeys rest := (List.nodup_cons.mp h).1
    unfold dictSet
    by_cases h0 : k0 = k
    · subst h0
      rw [if_pos rfl]
      exact List.nodup_cons.mpr ⟨by simpa [dKeys] using hnm, hnd⟩
    · rw [if_neg h0]
      refine List.nodup_cons.mpr ⟨?_, ih hnd⟩
      intro hmem
      rcases dKeys_dictSet (by simpa [dKeys] using hmem) with h' | h'
      · exact h0 h'
      · exact hnm (by simpa [dKeys] using h')

theorem dictSet_fresh (k : String) (v : PyVal) :
    ∀ d : PyDict, k ∉ dKeys d → dictSet k v d = d ++ [(k, v)] := by
  intro d
  induction d with
  | nil => intro _; rfl
  | cons kv rest ih =>
    obtain ⟨k0, v0⟩ := kv
    intro h
    have h0 : k0 ≠ k := by
      intro h0
      exact h (by simp [dKeys, h0])
    unfold dictSet
    rw [if_neg h0, ih (fun hm => h (by simp [dKeys] at hm ⊢; exact Or.inr hm))]
    simp

theorem foldl_normStep_fix :
    ∀ (l acc : PyDict), (dKeys l).Nodup →
      (∀ kv ∈ l, norm_entry kv.1 kv.2 = some kv.2) →
      (∀ kv ∈ l, kv.1 ∉ dKeys acc) →
      List.foldl normStep acc l = acc ++ l := by
  intro l
  induction l with
  | nil => intro acc _ _ _; simp
  | cons kv rest ih =>
    intro acc hnodup hstable hdisj
    have hstep : normStep acc kv = acc ++ [kv] := by
      unfold normStep
      rw [hstable kv (by simp)]
      exact dictSet_fresh kv.1 kv.2 acc (hdisj kv (by simp))
    have hnodup' : (kv.1 :: dKeys rest).Nodup := by
      simpa only [dKeys, List.map_cons] using hnodup
    have hk : kv.1 ∉ dKeys rest := (List.nodup_cons.mp hnodup').1
    have hrest := ih (acc ++ [kv])
      ((List.nodup_cons.mp hnodup').2)
      (fun kv' h' => hstable kv' (by simp [h']))
      (by
        intro kv' h' hmem
        rw [dKeys, List.map_append] at hmem
        rcases List.mem_append.mp hmem with hm | hm
        · exact hdisj kv' (by simp [h']) hm
        · simp only [List.map_cons, List.map_nil, List.mem_singleton] at hm
          exact hk (by rw [← hm]; exact List.mem_map.mpr ⟨kv', h', rfl⟩))
    calc List.foldl normStep acc (kv :: rest)
        = List.foldl normStep (normStep acc kv) rest := by rfl
      _ = List.foldl normStep (acc ++ [kv]) rest := by rw [hstep]
      _ = acc ++ [kv] ++ rest := hrest
      _ = acc ++ kv :: rest := by simp

theorem normalize_mem_stable (d : PyDict) :
    ∀ kv ∈ normalize_api_params d, norm_entry kv.1 kv.2 = some kv.2 := by
  suffices h : ∀ (l acc : PyDict),
      (∀ kv ∈ acc, norm_entry kv.1 kv.2 = some kv.2) →
      ∀ kv ∈ List.foldl normStep acc l, norm_entry kv.1 kv.2 = some kv.2 by
    exact h d [] (by simp)
  intro l
  induction l with
  | nil => intro acc hacc kv h; exact hacc kv h
  | cons x rest ih =>
    intro acc hacc kv h
    refine ih (normStep acc x) ?_ kv h
    intro kv' h'
    unfold normStep at h'
    cases hx : norm_entry x.1 x.2 with
    | none =>
      rw [hx] at h'
      exact hacc kv' h'
    | some w =>
      rw [hx] at h'
      rcases dictSet_mem h' with rfl | h''
      · exact norm_entry_stable x.1 x.2 w hx
      · exact hacc kv' h''

theorem normalize_keys_nodup (d : PyDict) :
    (dKeys (normalize_api_params d)).Nodup := by
  suffices h : ∀ (l acc : PyDict), (dKeys acc).Nodup →
      (dKeys (List.foldl normStep acc l)).Nodup by
    exact h d [] (by simp [dKeys])
  intro l
  induction l with
  | nil => intro acc hacc; exact hacc
  | cons x rest ih =>
    intro acc hacc
    refine ih (normStep acc x) ?_
    unfold normStep
    cases hx : norm_entry x.1 x.2 with
    | none => exact hacc
    | some w => exact dKeys_nodup_dictSet x.1 w acc hacc

/-- C7: parameter normalization is idempotent — normalizing an
already-normalized mapping returns it unchanged, including the
`trend_interval` lower-casing and the `lens`/`sub_lens` formatting. -/
theorem C7_normalize_idempotent (d : PyDict) :
    normalize_api_params (normalize_api_params d) = normalize_api_params d := by
  have h := foldl_normStep_fix (normalize_api_params d) []
    (normalize_keys_nodup d) (normalize_mem_stable d) (by simp [dKeys])
  simpa [normalize_api_params] using h
